import Mathlib

set_option maxRecDepth 100000

/-!
Verification of the go-url-shortener core: the deterministic short-code
resolver (SHA-256 + base-62 truncation) and the batching deletion worker,
shallowly embedded from the Go sources.
-/

namespace UrlShortener

/-! ### SHA-256 (crypto/sha256), over byte lists, words as Nat mod 2^32 -/

def M32 : Nat := 4294967296

def M64 : Nat := 18446744073709551616

def rotr32 (n x : Nat) : Nat := ((x >>> n) ||| (x <<< (32 - n))) % M32

def ch32 (x y z : Nat) : Nat := (x &&& y) ^^^ ((x ^^^ 4294967295) &&& z)

def maj32 (x y z : Nat) : Nat := (x &&& y) ^^^ (x &&& z) ^^^ (y &&& z)

def bsig0 (x : Nat) : Nat := rotr32 2 x ^^^ rotr32 13 x ^^^ rotr32 22 x

def bsig1 (x : Nat) : Nat := rotr32 6 x ^^^ rotr32 11 x ^^^ rotr32 25 x

def ssig0 (x : Nat) : Nat := rotr32 7 x ^^^ rotr32 18 x ^^^ (x >>> 3)

def ssig1 (x : Nat) : Nat := rotr32 17 x ^^^ rotr32 19 x ^^^ (x >>> 10)

/-- The 64 SHA-256 round constants, written in decimal. -/
def sha256K : List Nat :=
  [1116352408, 1899447441, 3049323471, 3921009573, 961987163, 1508970993,
   2453635748, 2870763221, 3624381080, 310598401, 607225278, 1426881987,
   1925078388, 2162078206, 2614888103, 3248222580, 3835390401, 4022224774,
   264347078, 604807628, 770255983, 1249150122, 1555081692, 1996064986,
   2554220882, 2821834349, 2952996808, 3210313671, 3336571891, 3584528711,
   113926993, 338241895, 666307205, 773529912, 1294757372, 1396182291,
   1695183700, 1986661051, 2177026350, 2456956037, 2730485921, 2820302411,
   3259730800, 3345764771, 3516065817, 3600352804, 4094571909, 275423344,
   430227734, 506948616, 659060556, 883997877, 958139571, 1322822218,
   1537002063, 1747873779, 1955562222, 2024104815, 2227730452, 2361852424,
   2428436474, 2756734187, 3204031479, 3329325298]

/-- The eight SHA-256 initial hash words, written in decimal. -/
def sha256H0 : List Nat :=
  [1779033703, 3144134277, 1013904242, 2773480762,
   1359893119, 2600822924, 528734635, 1541459225]

/-- Next message-schedule word from the already-computed prefix. -/
def wNext (acc : List Nat) : Nat :=
  let n := acc.length
  (ssig1 (acc.getD (n - 2) 0) + acc.getD (n - 7) 0 + ssig0 (acc.getD (n - 15) 0) +
    acc.getD (n - 16) 0) % M32

def extendW : Nat → List Nat → List Nat
  | 0, acc => acc
  | n + 1, acc => extendW n (acc ++ [wNext acc])

def compress1 (s : List Nat) (kw : Nat × Nat) : List Nat :=
  match s with
  | [a, b, c, d, e, f, g, h] =>
    let t1 := (h + bsig1 e + ch32 e f g + kw.1 + kw.2) % M32
    let t2 := (bsig0 a + maj32 a b c) % M32
    [(t1 + t2) % M32, a, b, c, (d + t1) % M32, e, f, g]
  | s => s

/-- Split a byte list into groups of four, fold each group big-endian. -/
def toWords : Nat → List Nat → List Nat
  | 0, _ => []
  | _, [] => []
  | fuel + 1, l => (l.take 4).foldl (fun a b => a * 256 + b) 0 :: toWords fuel (l.drop 4)

def compressBlock (hh : List Nat) (block : List Nat) : List Nat :=
  let w := extendW 48 (toWords 64 block)
  let s := (sha256K.zip w).foldl compress1 hh
  (hh.zip s).map fun p => (p.1 + p.2) % M32

/-- Big-endian 8-byte encoding of the bit length, as in the SHA-256 padding. -/
def lenBytes64 (l : Nat) : List Nat :=
  [(8 * l >>> 56) % 256, (8 * l >>> 48) % 256, (8 * l >>> 40) % 256, (8 * l >>> 32) % 256,
   (8 * l >>> 24) % 256, (8 * l >>> 16) % 256, (8 * l >>> 8) % 256, (8 * l) % 256]

def padMsg (msg : List Nat) : List Nat :=
  msg ++ [128] ++ List.replicate ((119 - msg.length % 64) % 64) 0 ++ lenBytes64 msg.length

def toBlocks : Nat → List Nat → List (List Nat)
  | 0, _ => []
  | _, [] => []
  | fuel + 1, l => l.take 64 :: toBlocks fuel (l.drop 64)

def wordToBytes (w : Nat) : List Nat :=
  [(w >>> 24) % 256, (w >>> 16) % 256, (w >>> 8) % 256, w % 256]

/-- SHA-256 digest (32 bytes) of a byte list; sha256.Sum256 in Go. -/
def sha256Bytes (msg : List Nat) : List Nat :=
  let padded := padMsg msg
  ((toBlocks padded.length padded).foldl compressBlock sha256H0).foldr
    (fun w acc => wordToBytes w ++ acc) []

/-- UTF-8 encoding of one code point; []byte(url) in Go encodes UTF-8. -/
def charUtf8 (n : Nat) : List Nat :=
  if n < 128 then [n]
  else if n < 2048 then [192 ||| (n >>> 6), 128 ||| (n &&& 63)]
  else if n < 65536 then
    [224 ||| (n >>> 12), 128 ||| ((n >>> 6) &&& 63), 128 ||| (n &&& 63)]
  else
    [240 ||| (n >>> 18), 128 ||| ((n >>> 12) &&& 63), 128 ||| ((n >>> 6) &&& 63),
     128 ||| (n &&& 63)]

def strBytes (s : String) : List Nat :=
  (s.data.map fun c => charUtf8 c.toNat).flatten

/-- Lowercase hex digit, as produced by hex.EncodeToString. -/
def hexDigitChar (d : Nat) : Char :=
  if d < 10 then Char.ofNat (48 + d) else Char.ofNat (87 + d)

def hexEncode (bytes : List Nat) : List Char :=
  (bytes.map fun b => [hexDigitChar (b / 16), hexDigitChar (b % 16)]).flatten

/-! ### The resolver (internal/app/service/urlResolver.go and
internal/app/services/urlResolver.go share hashToShort and base16ToBase62
verbatim). Go uint64 arithmetic wraps, hence the explicit mod 2^64. -/

/-- The 62-symbol alphabet field `elements` of URLResolver. -/
def elements : List Char :=
  "0123456789abcdefghijklmnopqrstuvwxyzABCDEFGHIJKLMNOPQRSTUVWXYZ".toList

/-- One iteration of the accumulation loop of base16ToBase62:
`value` is a Go uint64, so every operation wraps mod 2^64. -/
def accumStep (value : Nat) (char : Char) : Nat :=
  if '0' ≤ char ∧ char ≤ '9' then (value * 16 + (char.toNat - '0'.toNat)) % M64
  else if 'a' ≤ char ∧ char ≤ 'f' then (value * 16 + (char.toNat - 'a'.toNat + 10)) % M64
  else value

/-- The accumulation loop of base16ToBase62: `for _, char := range hexString`. -/
def accumValue (hexString : List Char) : Nat :=
  hexString.foldl accumStep 0

/-- The emission loop of base16ToBase62: `for value > 0` prepends
`elements[value%62]` and divides by 62; written here with explicit fuel
(64 iterations always suffice for a value below 2^64), most significant
digit first. -/
def base62Aux : Nat → Nat → List Char
  | 0, _ => []
  | fuel + 1, v => if v = 0 then [] else base62Aux fuel (v / 62) ++ [elements.getD (v % 62) '0']

/-- base16ToBase62: accumulate the hex digits into a wrapping uint64, then
emit base-62 digits. -/
def base16ToBase62 (hexString : List Char) : List Char :=
  base62Aux 64 (accumValue hexString)

/-- hashToShort: SHA-256 the URL bytes, hex-encode, base-62 re-encode, then
slice `base62[:numCharsShortLink]`. Slicing beyond the string's length is a
Go runtime panic, modelled as `none`. -/
def hashToShort (numCharsShortLink : Nat) (url : String) : Option (List Char) :=
  let hexHash := hexEncode (sha256Bytes (strBytes url))
  let base62 := base16ToBase62 hexHash
  if numCharsShortLink ≤ base62.length then some (base62.take numCharsShortLink) else none

/-- hashToShort returning a String (the Go functions return string). -/
def hashToShortStr (numCharsShortLink : Nat) (url : String) : Option String :=
  (hashToShort numCharsShortLink url).map String.mk

/-- The stateless variant (internal/app/service/urlResolver.go):
`func (u *URLResolver) LongToShort(url string) string { return u.hashToShort(url) }` -/
def serviceLongToShort (numCharsShortLink : Nat) (url : String) : Option String :=
  hashToShortStr numCharsShortLink url

/-! ### Data model: storage.URLRecord (internal/storage/models.go) -/

structure URLRecord where
  id : String
  original : String
  short : String
  userID : String
  isDeleted : Bool
deriving DecidableEq, Repr

/-! ### Deletion worker (internal/worker/deleteTaskWorker.go)

FlushRecords is a single goroutine looping on `select` over the input
channel and a 10-second ticker.  We embed it as a transition system: an
event is either the arrival of a record on the channel or a ticker fire,
and the storage backend's DeleteBatch outcome is a function `deleteErr`
from the batch to whether the call returned an error.  The state records
the buffer `messages` and the log of DeleteBatch calls issued (batch
contents paired with the outcome). -/

inductive Event where
  | recv (msg : URLRecord)
  | tick
deriving DecidableEq, Repr

structure WorkerState where
  messages : List URLRecord
  calls : List (List URLRecord × Bool)
deriving DecidableEq, Repr

def initialState : WorkerState := { messages := [], calls := [] }

/-- sendMessages: call DeleteBatch with the whole buffer; on error log and
truncate `messages = messages[:0]` and return, on success truncate the
same way. -/
def sendMessages (deleteErr : List URLRecord → Bool) (st : WorkerState) : WorkerState :=
  let call := (st.messages, deleteErr st.messages)
  if deleteErr st.messages then
    { messages := [], calls := st.calls ++ [call] }
  else
    { messages := [], calls := st.calls ++ [call] }

/-- One iteration of the FlushRecords select loop. -/
def workerStep (deleteErr : List URLRecord → Bool) (st : WorkerState) : Event → WorkerState
  | Event.recv msg =>
    let msgs := st.messages ++ [msg]
    let st' : WorkerState := { st with messages := msgs }
    if msgs.length > 25 then sendMessages deleteErr st' else st'
  | Event.tick =>
    if st.messages.length = 0 then st else sendMessages deleteErr st

def workerRun (deleteErr : List URLRecord → Bool) (st : WorkerState)
    (evs : List Event) : WorkerState :=
  evs.foldl (workerStep deleteErr) st

/-! ### In-memory storage (the documented MemoryStorage with context
parameters; maps embedded as association lists) -/

structure MemoryStorage where
  stol : List (String × String)
  idtol : List (String × List URLRecord)
deriving DecidableEq, Repr

/-- MemoryStorage.DeleteBatch: `delete(m.idtol, rs[0].ID)` indexes element 0
of the batch — a runtime panic on an empty slice, modelled as `none` — then
deletes each short code from stol. -/
def memDeleteBatch (rs : List URLRecord) (m : MemoryStorage) : Option MemoryStorage :=
  match rs with
  | [] => none
  | r0 :: _ =>
    some
      { idtol := m.idtol.filter fun kv => kv.1 != r0.id
        stol := rs.foldl (fun s r => s.filter fun kv => kv.1 != r.short) m.stol }

/-- MemoryStorage.FindByShort: map lookup; on a miss returns the nil pointer
(`none`) together with an error. Result is (record pointer, error?). -/
def memFindByShort (m : MemoryStorage) (short : String) : Option URLRecord × Bool :=
  match m.stol.lookup short with
  | some long =>
    (some { id := "", original := long, short := short, userID := "", isDeleted := false }, false)
  | none => (none, true)

/-- URLResolver.ShortToLong (internal/app/service/urlResolver.go):
`r, err := u.storage.FindByShort(ctx, short); return r.Original, err`.
The field access `r.Original` dereferences the returned pointer; when the
pointer is nil this is a runtime panic, modelled as `none`. -/
def shortToLong (m : MemoryStorage) (short : String) : Option (String × Bool) :=
  let re := memFindByShort m short
  match re.1 with
  | some r => some (r.original, re.2)
  | none => none

/-! ### Relational repository (internal/repository/repository.go) -/

/-- QueryRowContext over `SELECT ... FROM url_records WHERE short_url = $1`:
the first stored row whose short_url column equals the parameter. -/
def queryRowShortEq (table : List URLRecord) (param : String) : Option URLRecord :=
  table.find? fun rec => rec.short == param

/-- URLRepository.FindByLong: despite its name, binds the long URL to the
`short_url = $1` clause; a missing row makes Scan fail and the error is
returned (`none`). -/
def repoFindByLong (table : List URLRecord) (long : String) : Option URLRecord :=
  match queryRowShortEq table long with
  | some row => some row
  | none => none

/-! ### The map-backed stateful resolver (internal/app/services/urlResolver.go) -/

structure ServicesResolver where
  numCharsShortLink : Nat
  ltos : List (String × String)
  stol : List (String × String)
deriving DecidableEq, Repr

/-- The collision loop of services.URLResolver.LongToShort:

`for _, exists := u.stol[short]; exists; { collisionCount++; ...; short = u.hashToShort(...) }`

The loop condition is the variable `exists`, bound once in the init
statement and never reassigned in the body, so the body cannot change it;
we embed the loop with fuel (`none` = the loop is still running when the
fuel runs out) and carry `exists` as the fixed boolean `ex`. -/
def collisionLoop (numChars : Nat) (url : String) (ex : Bool) :
    Nat → Nat → Option String → Option String
  | fuel, collisionCount, short =>
    if ex then
      match fuel with
      | 0 => none
      | fuel' + 1 =>
        let cc := collisionCount + 1
        collisionLoop numChars url ex fuel' cc (hashToShortStr numChars (url ++ toString cc))
    else short

/-- services.URLResolver.LongToShort: return the cached code if the URL was
seen; otherwise hash, run the collision loop, and record the mapping in
both maps. `none` = panic or non-termination within the given fuel. -/
def LongToShort (fuel : Nat) (u : ServicesResolver) (url : String) :
    Option (String × ServicesResolver) :=
  match u.ltos.lookup url with
  | some short => some (short, u)
  | none =>
    match hashToShortStr u.numCharsShortLink url with
    | none => none
    | some short =>
      let ex := (u.stol.lookup short).isSome
      match collisionLoop u.numCharsShortLink url ex fuel 0 (some short) with
      | none => none
      | some short' =>
        some (short', { u with ltos := (url, short') :: u.ltos, stol := (short', url) :: u.stol })

/-! ### Channel model for record submission (NewDeleteRecordWorker and
URLService.DeleteURLRecords)

`ch := make(chan storage.URLRecord)` passes no capacity, so the channel is
unbuffered (capacity 0).  Go channel semantics: a send completes without
waiting for the receiver exactly when a receiver is ready or the channel
buffer has free space. -/

def workerChannelCapacity : Nat := 0

inductive WorkerPhase where
  | atSelect
  | flushing (remaining : Nat)
deriving DecidableEq, Repr

/-- Whether the worker goroutine is at its select, ready to receive. -/
def workerReady : WorkerPhase → Bool
  | WorkerPhase.atSelect => true
  | WorkerPhase.flushing _ => false

/-- A send on a Go channel completes immediately iff a receiver is ready or
the buffer is not full. -/
def sendCompletesNow (capacity queued : Nat) (receiverReady : Bool) : Bool :=
  receiverReady || decide (queued < capacity)

/-- Joint state of URLService.DeleteURLRecords (`for _, record := range rs
{ s.ch <- record }`) and the worker goroutine: records still to send, the
worker's phase, and the records handed over so far. -/
structure DeleteSubmit where
  pending : List URLRecord
  phase : WorkerPhase
  handedOver : List URLRecord
deriving DecidableEq, Repr

/-- One scheduler step of the joint system: while the worker is inside
DeleteBatch it only makes flush progress; the producer's send on the
unbuffered channel completes only on rendezvous at the select. -/
def submitStep (s : DeleteSubmit) : DeleteSubmit :=
  match s.phase with
  | WorkerPhase.flushing (n + 1) => { s with phase := WorkerPhase.flushing n }
  | WorkerPhase.flushing 0 => { s with phase := WorkerPhase.atSelect }
  | WorkerPhase.atSelect =>
    match s.pending with
    | [] => s
    | r :: rest =>
      { pending := rest, phase := WorkerPhase.atSelect, handedOver := s.handedOver ++ [r] }

/-! ### Spec-side definitions for the refinement claims -/

/-- Spec version (refinement reference, from the spec's words): the full
256-bit SHA-256 digest of the URL's bytes interpreted as a single unsigned
integer, big-endian. -/
def specHashValue (url : String) : Nat :=
  (sha256Bytes (strBytes url)).foldl (fun a b => a * 256 + b) 0

/-- Spec version: base-62 digits (most significant first, no leading-zero
padding) of an arbitrary value; 256 iterations cover any 256-bit value. -/
def specBase62 (v : Nat) : List Char := base62Aux 256 v

/-- Spec version: the short code as the spec words it — the leading N
characters of the base-62 encoding of the full 256-bit hash integer. -/
def specShortCode (numChars : Nat) (url : String) : List Char :=
  (specBase62 (specHashValue url)).take numChars

/-- Spec version: the largest possible hash value (a 256-bit hash). -/
def largestHashValue : Nat := 2 ^ 256 - 1

/-! ### Analysis helpers -/

/-- The digit value a hex character contributes in the accumulation loop. -/
def hexCharVal (c : Char) : Nat :=
  if '0' ≤ c ∧ c ≤ '9' then c.toNat - '0'.toNat
  else if 'a' ≤ c ∧ c ≤ 'f' then c.toNat - 'a'.toNat + 10
  else 0

/-- Whether a character is one of the lowercase hex digits handled by the loop. -/
def isHexLower (c : Char) : Bool :=
  decide ('0' ≤ c ∧ c ≤ '9') || decide ('a' ≤ c ∧ c ≤ 'f')

/-- Exact (non-wrapping) base-16 accumulation. -/
def hexValue (cs : List Char) (v : Nat) : Nat :=
  cs.foldl (fun a c => a * 16 + hexCharVal c) v

/-- Exact big-endian base-256 accumulation. -/
def beValue (bs : List Nat) (v : Nat) : Nat :=
  bs.foldl (fun a b => a * 256 + b) v

/-- A sample record for concrete runs. -/
def rec0 : URLRecord :=
  { id := "1", original := "http://long.example", short := "abc12345", userID := "u1",
    isDeleted := false }

/-- A batch of 26 concrete records. -/
def rs26 : List URLRecord := List.replicate 26 rec0

/-- A fresh map-backed resolver with 1-character codes. -/
def servicesInit : ServicesResolver := { numCharsShortLink := 1, ltos := [], stol := [] }

/-- The resolver state after shortening "d" (code "b"). -/
def servicesAfterFirst : ServicesResolver :=
  { numCharsShortLink := 1, ltos := [("d", "b")], stol := [("b", "d")] }

/-- An empty in-memory store. -/
def emptyMem : MemoryStorage := { stol := [], idtol := [] }

/-- A stored row whose original URL is "https://example.com". -/
def repoRow : URLRecord :=
  { id := "1", original := "https://example.com", short := "abc", userID := "u1",
    isDeleted := false }

/-! ### Lemmas about the base-62 emission loop -/

lemma elements_getD_mem : ∀ i : Fin 62, elements.getD i.val '0' ∈ elements := by decide

lemma base62Aux_mem : ∀ fuel v c, c ∈ base62Aux fuel v → c ∈ elements := by
  intro fuel
  induction fuel with
  | zero => intro v c hc; simp [base62Aux] at hc
  | succ n ih =>
    intro v c hc
    by_cases hv : v = 0
    · simp [base62Aux, hv] at hc
    · simp only [base62Aux, if_neg hv, List.mem_append, List.mem_singleton] at hc
      rcases hc with hc | hc
      · exact ih _ _ hc
      · exact hc ▸ elements_getD_mem ⟨v % 62, by omega⟩

lemma base62Aux_zero : ∀ fuel, base62Aux fuel 0 = [] := by
  intro fuel; cases fuel <;> simp [base62Aux]

lemma base62Aux_fuel : ∀ f1 f2 v, v < 62 ^ f1 → v < 62 ^ f2 →
    base62Aux f1 v = base62Aux f2 v := by
  intro f1
  induction f1 with
  | zero =>
    intro f2 v h1 _
    have : v = 0 := by simpa using h1
    simp [this, base62Aux_zero]
  | succ n ih =>
    intro f2 v h1 h2
    by_cases hv : v = 0
    · simp [hv, base62Aux_zero]
    · cases f2 with
      | zero =>
        exact absurd h2 (by simp; omega)
      | succ m =>
        have hd1 : v / 62 < 62 ^ n := by
          rw [Nat.div_lt_iff_lt_mul (by omega)]
          calc v < 62 ^ (n + 1) := h1
            _ = 62 ^ n * 62 := by rw [Nat.pow_succ]
        have hd2 : v / 62 < 62 ^ m := by
          rw [Nat.div_lt_iff_lt_mul (by omega)]
          calc v < 62 ^ (m + 1) := h2
            _ = 62 ^ m * 62 := by rw [Nat.pow_succ]
        simp only [base62Aux, if_neg hv]
        rw [ih m (v / 62) hd1 hd2]

/-! ### Lemmas about the accumulation loop: the wrapping fold computes the
exact big-endian value of the digest, reduced mod 2^64 -/

lemma accumStep_hex (v : Nat) (c : Char) (h : isHexLower c = true) :
    accumStep v c = (v * 16 + hexCharVal c) % M64 := by
  unfold accumStep hexCharVal
  unfold isHexLower at h
  by_cases h1 : '0' ≤ c ∧ c ≤ '9'
  · simp [h1]
  · by_cases h2 : 'a' ≤ c ∧ c ≤ 'f'
    · simp [h1, h2]
    · simp [h1, h2] at h

lemma foldl_accumStep_mod : ∀ (cs : List Char) (v : Nat),
    (∀ c ∈ cs, isHexLower c = true) →
    List.foldl accumStep (v % M64) cs = hexValue cs v % M64 := by
  intro cs
  induction cs with
  | nil => intro v _; simp [hexValue]
  | cons c cs ih =>
    intro v h
    have hc : isHexLower c = true := h c (by simp)
    have hrest : ∀ x ∈ cs, isHexLower x = true := fun x hx => h x (by simp [hx])
    have hmod : (v % M64 * 16 + hexCharVal c) % M64 = (v * 16 + hexCharVal c) % M64 :=
      ((Nat.mod_modEq v M64).mul_right 16).add_right (hexCharVal c)
    calc List.foldl accumStep (v % M64) (c :: cs)
        = List.foldl accumStep ((v % M64 * 16 + hexCharVal c) % M64) cs := by
          rw [List.foldl_cons, accumStep_hex _ _ hc]
      _ = List.foldl accumStep ((v * 16 + hexCharVal c) % M64) cs := by rw [hmod]
      _ = hexValue cs (v * 16 + hexCharVal c) % M64 := ih _ hrest
      _ = hexValue (c :: cs) v % M64 := by simp [hexValue]

lemma accumValue_eq_mod (cs : List Char) (h : ∀ c ∈ cs, isHexLower c = true) :
    accumValue cs = hexValue cs 0 % M64 := by
  unfold accumValue
  have hm := foldl_accumStep_mod cs 0 h
  simpa using hm

lemma hexDigit_facts : ∀ d : Fin 16,
    isHexLower (hexDigitChar d.val) = true ∧ hexCharVal (hexDigitChar d.val) = d.val := by
  decide

lemma hexEncode_isHex : ∀ bs : List Nat, (∀ b ∈ bs, b < 256) →
    ∀ c ∈ hexEncode bs, isHexLower c = true := by
  intro bs
  induction bs with
  | nil => intro _ c hc; simp [hexEncode] at hc
  | cons b bs ih =>
    intro h c hc
    have hb : b < 256 := h b (by simp)
    have hdiv : b / 16 < 16 := by omega
    have hmodd : b % 16 < 16 := by omega
    have hflat : hexEncode (b :: bs) =
        hexDigitChar (b / 16) :: hexDigitChar (b % 16) :: hexEncode bs := by
      simp [hexEncode]
    rw [hflat] at hc
    rcases List.mem_cons.mp hc with hc | hc
    · exact hc ▸ (hexDigit_facts ⟨b / 16, hdiv⟩).1
    rcases List.mem_cons.mp hc with hc | hc
    · exact hc ▸ (hexDigit_facts ⟨b % 16, hmodd⟩).1
    exact ih (fun x hx => h x (by simp [hx])) c hc

lemma hexValue_hexEncode : ∀ (bs : List Nat) (v : Nat), (∀ b ∈ bs, b < 256) →
    hexValue (hexEncode bs) v = beValue bs v := by
  intro bs
  induction bs with
  | nil => intro v _; simp [hexValue, hexEncode, beValue]
  | cons b bs ih =>
    intro v h
    have hb : b < 256 := h b (by simp)
    have hdiv : b / 16 < 16 := by omega
    have hmodd : b % 16 < 16 := by omega
    have f1 := (hexDigit_facts ⟨b / 16, hdiv⟩).2
    have f2 := (hexDigit_facts ⟨b % 16, hmodd⟩).2
    have hflat : hexEncode (b :: bs) =
        hexDigitChar (b / 16) :: hexDigitChar (b % 16) :: hexEncode bs := by
      simp [hexEncode]
    rw [hflat]
    simp only [hexValue, List.foldl_cons, f1, f2, beValue]
    have harith : (v * 16 + b / 16) * 16 + b % 16 = v * 256 + b := by omega
    rw [harith]
    exact ih (v * 256 + b) (fun x hx => h x (by simp [hx]))

lemma foldr_wordToBytes_lt : ∀ (ws : List Nat) (b : Nat),
    b ∈ ws.foldr (fun w acc => wordToBytes w ++ acc) [] → b < 256 := by
  intro ws
  induction ws with
  | nil => intro b hb; simp at hb
  | cons w ws ih =>
    intro b hb
    simp only [List.foldr_cons, List.mem_append] at hb
    rcases hb with hb | hb
    · simp only [wordToBytes, List.mem_cons, List.mem_singleton, List.not_mem_nil,
        or_false] at hb
      rcases hb with hb | hb | hb | hb <;> omega
    · exact ih b hb

lemma sha256Bytes_lt (msg : List Nat) : ∀ b ∈ sha256Bytes msg, b < 256 := by
  intro b hb
  unfold sha256Bytes at hb
  exact foldr_wordToBytes_lt _ b hb

/-- The central refinement fact: what base16ToBase62 really encodes is the
digest's big-endian integer value reduced mod 2^64 (the uint64 wraparound). -/
lemma base16ToBase62_spec (url : String) :
    base16ToBase62 (hexEncode (sha256Bytes (strBytes url))) =
      base62Aux 64 (specHashValue url % M64) := by
  unfold base16ToBase62
  have h256 := sha256Bytes_lt (strBytes url)
  rw [accumValue_eq_mod _ (hexEncode_isHex _ h256),
    hexValue_hexEncode _ 0 h256]
  rfl

/-! ### Lemmas about the deletion worker loop -/

lemma sendMessages_eq (deleteErr : List URLRecord → Bool) (st : WorkerState) :
    sendMessages deleteErr st =
      { messages := [], calls := st.calls ++ [(st.messages, deleteErr st.messages)] } := by
  unfold sendMessages
  split <;> rfl

lemma workerRun_append (deleteErr : List URLRecord → Bool) (st : WorkerState)
    (a b : List Event) :
    workerRun deleteErr st (a ++ b) = workerRun deleteErr (workerRun deleteErr st a) b :=
  List.foldl_append _ _ a b

lemma workerStep_recv (deleteErr : List URLRecord → Bool) (st : WorkerState)
    (msg : URLRecord) :
    workerStep deleteErr st (Event.recv msg) =
      if (st.messages ++ [msg]).length > 25 then
        sendMessages deleteErr { st with messages := st.messages ++ [msg] }
      else { st with messages := st.messages ++ [msg] } := rfl

lemma workerStep_tick (deleteErr : List URLRecord → Bool) (st : WorkerState) :
    workerStep deleteErr st Event.tick =
      if st.messages.length = 0 then st else sendMessages deleteErr st := rfl

lemma workerRun_recvs (deleteErr : List URLRecord → Bool) :
    ∀ (rs : List URLRecord) (st : WorkerState),
      st.messages.length + rs.length ≤ 25 →
      workerRun deleteErr st (rs.map Event.recv) = { st with messages := st.messages ++ rs } := by
  intro rs
  induction rs with
  | nil => intro st _; simp [workerRun]
  | cons r rs ih =>
    intro st h
    simp only [List.length_cons] at h
    have hstep : workerStep deleteErr st (Event.recv r) =
        { st with messages := st.messages ++ [r] } := by
      rw [workerStep_recv]
      rw [if_neg (by simp only [List.length_append, List.length_singleton]; omega)]
    have htail : ({ st with messages := st.messages ++ [r] } : WorkerState).messages.length
        + rs.length ≤ 25 := by
      simp only [List.length_append, List.length_singleton]
      omega
    calc workerRun deleteErr st ((r :: rs).map Event.recv)
        = workerRun deleteErr (workerStep deleteErr st (Event.recv r)) (rs.map Event.recv) := by
          simp [workerRun]
      _ = workerRun deleteErr { st with messages := st.messages ++ [r] } (rs.map Event.recv) := by
          rw [hstep]
      _ = { st with messages := (st.messages ++ [r]) ++ rs } := ih _ htail
      _ = { st with messages := st.messages ++ (r :: rs) } := by
          simp

lemma workerStep_calls_nonEmpty (deleteErr : List URLRecord → Bool) (st : WorkerState)
    (e : Event) (h : ∀ p ∈ st.calls, p.1 ≠ []) :
    ∀ p ∈ (workerStep deleteErr st e).calls, p.1 ≠ [] := by
  intro p hp
  cases e with
  | recv msg =>
    rw [workerStep_recv] at hp
    by_cases hc : (st.messages ++ [msg]).length > 25
    · rw [if_pos hc, sendMessages_eq] at hp
      simp only [List.mem_append, List.mem_singleton] at hp
      rcases hp with hp | hp
      · exact h p hp
      · subst hp; simp
    · rw [if_neg hc] at hp
      exact h p hp
  | tick =>
    rw [workerStep_tick] at hp
    by_cases hc : st.messages.length = 0
    · rw [if_pos hc] at hp
      exact h p hp
    · rw [if_neg hc, sendMessages_eq] at hp
      simp only [List.mem_append, List.mem_singleton] at hp
      rcases hp with hp | hp
      · exact h p hp
      · subst hp
        simpa [← List.length_eq_zero] using hc

lemma workerRun_calls_nonEmpty (deleteErr : List URLRecord → Bool) :
    ∀ (evs : List Event) (st : WorkerState), (∀ p ∈ st.calls, p.1 ≠ []) →
      ∀ p ∈ (workerRun deleteErr st evs).calls, p.1 ≠ [] := by
  intro evs
  induction evs with
  | nil => intro st h; simpa [workerRun] using h
  | cons e evs ih =>
    intro st h
    have h1 := workerStep_calls_nonEmpty deleteErr st e h
    simpa [workerRun] using ih (workerStep deleteErr st e) h1

lemma workerStep_tick_empty (deleteErr : List URLRecord → Bool) :
    workerStep deleteErr initialState Event.tick = initialState := by
  rw [workerStep_tick]
  rw [if_pos (by simp [initialState])]

lemma workerRun_ticks (deleteErr : List URLRecord → Bool) :
    ∀ n, workerRun deleteErr initialState (List.replicate n Event.tick) = initialState := by
  intro n
  induction n with
  | zero => simp [workerRun]
  | succ m ih =>
    have : List.replicate (m + 1) Event.tick = Event.tick :: List.replicate m Event.tick :=
      List.replicate_succ _ _
    rw [this]
    show workerRun deleteErr (workerStep deleteErr initialState Event.tick)
      (List.replicate m Event.tick) = initialState
    rw [workerStep_tick_empty]
    exact ih

/-! ### Lemma about the stateful resolver's collision loop -/

lemma collisionLoop_true (numChars : Nat) (url : String) :
    ∀ (fuel collisionCount : Nat) (short : Option String),
      collisionLoop numChars url true fuel collisionCount short = none := by
  intro fuel
  induction fuel with
  | zero => intro cc short; simp [collisionLoop]
  | succ n ih => intro cc short; simp [collisionLoop, ih]

/-! ### Claim theorems -/

/-- C1: whenever a flush is triggered, the worker passes the entire current
buffer to DeleteBatch, and afterwards the buffer is empty regardless of
whether DeleteBatch succeeded or errored; the error changes nothing but the
logged outcome, and the loop continues from the same cleared state. -/
theorem C1_flush_clears_buffer_even_on_error :
    ∀ (deleteErr deleteErr' : List URLRecord → Bool) (st : WorkerState),
      (sendMessages deleteErr st).calls = st.calls ++ [(st.messages, deleteErr st.messages)] ∧
      (sendMessages deleteErr st).messages = [] ∧
      (sendMessages deleteErr' st).messages = (sendMessages deleteErr st).messages ∧
      ∀ evs, workerRun deleteErr (sendMessages deleteErr st) evs =
        workerRun deleteErr
          { messages := [], calls := st.calls ++ [(st.messages, deleteErr st.messages)] } evs := by
  intro d d' st
  refine ⟨?_, ?_, ?_, ?_⟩
  · rw [sendMessages_eq]
  · rw [sendMessages_eq]
  · rw [sendMessages_eq, sendMessages_eq]
  · intro evs; rw [sendMessages_eq]

/-- C2: from an empty buffer, the first 25 record arrivals trigger no flush,
and the 26th triggers exactly one DeleteBatch call whose batch is all 26
records in arrival order (the threshold is buffer length strictly greater
than 25). -/
theorem C2_batch_size_trigger :
    ∀ (deleteErr : List URLRecord → Bool) (rs : List URLRecord), rs.length = 26 →
      workerRun deleteErr initialState ((rs.take 25).map Event.recv) =
        { messages := rs.take 25, calls := [] } ∧
      workerRun deleteErr initialState (rs.map Event.recv) =
        { messages := [], calls := [(rs, deleteErr rs)] } := by
  intro derr rs h
  have ht25 : (rs.take 25).length = 25 := by simp [List.length_take, h]
  constructor
  · have hr := workerRun_recvs derr (rs.take 25) initialState (by simp [initialState, ht25])
    simpa [initialState] using hr
  · obtain ⟨z, hz⟩ := List.length_eq_one.mp (show (rs.drop 25).length = 1 by simp [h])
    have hrs : rs.take 25 ++ [z] = rs := by rw [← hz]; exact List.take_append_drop 25 rs
    conv_lhs => rw [← hrs]
    rw [List.map_append, workerRun_append,
      workerRun_recvs derr (rs.take 25) initialState (by simp [initialState, ht25])]
    have hstate : ({ initialState with
        messages := initialState.messages ++ rs.take 25 } : WorkerState) =
        { messages := rs.take 25, calls := [] } := by simp [initialState]
    rw [hstate]
    show workerStep derr { messages := rs.take 25, calls := [] } (Event.recv z) = _
    rw [workerStep_recv, if_pos (by simp [ht25]), sendMessages_eq]
    simp [hrs]

/-- C2 witness: 26 concrete records from an empty buffer produce exactly one
call carrying all 26. -/
theorem C2_batch_size_trigger_witness :
    rs26.length = 26 ∧
    (workerRun (fun _ => false) initialState ((rs26.take 25).map Event.recv) =
      { messages := rs26.take 25, calls := [] } ∧
    workerRun (fun _ => false) initialState (rs26.map Event.recv) =
      { messages := [], calls := [(rs26, false)] }) :=
  ⟨by decide, C2_batch_size_trigger (fun _ => false) rs26 (by decide)⟩

/-- C3: the spec claims the collision-discriminator loop terminates and
assigns a distinct code, but the Go loop condition is the boolean variable
`exists`, bound once in the for-init and never reassigned in the body, so a
second URL whose hash-derived code collides makes LongToShort loop forever.
Concretely with 1-character codes: "d" is assigned code "b"; "f" also
hashes to "b", and the call LongToShort "f" diverges for every fuel. -/
theorem C3_collision_loop_diverges :
    LongToShort 1 servicesInit "d" = some ("b", servicesAfterFirst) ∧
    ("d" : String) ≠ "f" ∧
    hashToShortStr 1 "d" = some "b" ∧
    hashToShortStr 1 "f" = some "b" ∧
    ∀ fuel, LongToShort fuel servicesAfterFirst "f" = none := by
  refine ⟨by decide, by decide, by decide, by decide, ?_⟩
  intro fuel
  have h1 : servicesAfterFirst.ltos.lookup "f" = none := by decide
  have h2 : hashToShortStr servicesAfterFirst.numCharsShortLink "f" = some "b" := by decide
  have h3 : (servicesAfterFirst.stol.lookup "b").isSome = true := by decide
  simp only [LongToShort, h1, h2, h3, collisionLoop_true]

/-- C4 counterexample: at "https://example.com" with length 8, the code the
program computes ("aO5UR9qN") differs from the first 8 base-62 characters
of the full 256-bit hash integer ("3NBE4XKN"), refuting the claim as
stated. -/
theorem C4_counterexample :
    hashToShort 8 "https://example.com" = some "aO5UR9qN".toList ∧
    specShortCode 8 "https://example.com" = "3NBE4XKN".toList ∧
    "aO5UR9qN".toList ≠ "3NBE4XKN".toList := by decide

/-- C4 (amended): the short code is the leading N characters of the base-62
representation of the 256-bit hash integer reduced modulo 2^64 — the
accumulation runs in wrapping uint64 arithmetic. -/
theorem C4_amended_mod64 :
    ∀ (url : String) (numChars : Nat),
      hashToShort numChars url =
        if numChars ≤ (specBase62 (specHashValue url % M64)).length then
          some ((specBase62 (specHashValue url % M64)).take numChars)
        else none := by
  intro url n
  have hv : specHashValue url % M64 < M64 := Nat.mod_lt _ (by norm_num [M64])
  have hpow : M64 = 2 ^ 64 := by norm_num [M64]
  have h64 : specHashValue url % M64 < 62 ^ 64 :=
    lt_of_lt_of_le hv (by rw [hpow]; exact Nat.pow_le_pow_left (by omega) 64)
  have h256 : specHashValue url % M64 < 62 ^ 256 :=
    lt_of_lt_of_le h64 (Nat.pow_le_pow_right (by omega) (by omega))
  have hb : specBase62 (specHashValue url % M64) = base62Aux 64 (specHashValue url % M64) := by
    unfold specBase62
    exact base62Aux_fuel 256 64 _ h256 h64
  rw [hb]
  simp only [hashToShort]
  rw [base16ToBase62_spec]

/-- C5 counterexample: 12 does not exceed the base-62 length (43) of the
largest possible 256-bit hash value, yet hashToShort with length 12 panics
(slices past the end) on "https://example.com", refuting the claim's
totality contract as stated. -/
theorem C5_counterexample :
    12 ≤ (specBase62 largestHashValue).length ∧
    hashToShort 12 "https://example.com" = none := by decide

/-- C5 (amended): hashToShort is total and returns exactly numChars
characters of the 62-symbol alphabet precisely when numChars does not
exceed the length of the base-62 encoding of the URL's own (uint64-wrapped)
hash value. -/
theorem C5_amended_totality :
    ∀ (url : String) (numChars : Nat),
      numChars ≤ (base16ToBase62 (hexEncode (sha256Bytes (strBytes url)))).length →
      ∃ s, hashToShort numChars url = some s ∧ s.length = numChars ∧
        ∀ c ∈ s, c ∈ elements := by
  intro url n h
  refine ⟨(base16ToBase62 (hexEncode (sha256Bytes (strBytes url)))).take n, ?_, ?_, ?_⟩
  · simp only [hashToShort]
    rw [if_pos h]
  · rw [List.length_take]
    omega
  · intro c hc
    have hmem : c ∈ base16ToBase62 (hexEncode (sha256Bytes (strBytes url))) :=
      List.take_subset _ _ hc
    unfold base16ToBase62 at hmem
    exact base62Aux_mem 64 _ c hmem

/-- C5 witness: at length 8 and URL "https://example.com" the hypothesis
holds (the encoding has 11 characters) and the code is 8 alphabet
characters. -/
theorem C5_amended_totality_witness :
    8 ≤ (base16ToBase62 (hexEncode (sha256Bytes (strBytes "https://example.com")))).length ∧
    ∃ s, hashToShort 8 "https://example.com" = some s ∧ s.length = 8 ∧
      ∀ c ∈ s, c ∈ elements :=
  ⟨by decide, C5_amended_totality "https://example.com" 8 (by decide)⟩

/-- C6 counterexample: the stateless resolver at length 8 maps
"https://example.com" to "aO5UR9qN", not to the fixture value "5Ol0CyIn",
refuting the claim as stated. -/
theorem C6_counterexample :
    serviceLongToShort 8 "https://example.com" = some "aO5UR9qN" ∧
    ("aO5UR9qN" : String) ≠ "5Ol0CyIn" := by decide

/-- C6 (amended): the fixture value "5Ol0CyIn" is the code of the test
suite's input "https://practicum.yandex.ru/", produced by the stateless
resolver with length 8 and no collision suffix. -/
theorem C6_amended_fixture :
    serviceLongToShort 8 "https://practicum.yandex.ru/" = some "5Ol0CyIn" := by decide

/-- C7: every DeleteBatch call the worker issues carries a non-empty batch
(on which the in-memory backend's element-0 access cannot panic), and a run
with zero submitted records performs zero calls no matter how many timer
ticks fire. -/
theorem C7_no_empty_flush :
    (∀ (deleteErr : List URLRecord → Bool) (evs : List Event) (b : List URLRecord)
        (e : Bool) (m : MemoryStorage),
        (b, e) ∈ (workerRun deleteErr initialState evs).calls →
        b ≠ [] ∧ (memDeleteBatch b m).isSome = true) ∧
      ∀ (deleteErr : List URLRecord → Bool) (n : Nat),
        workerRun deleteErr initialState (List.replicate n Event.tick) = initialState := by
  constructor
  · intro derr evs b e m hmem
    have hne : b ≠ [] := by
      have hh := workerRun_calls_nonEmpty derr evs initialState
        (by simp [initialState]) (b, e) hmem
      simpa using hh
    refine ⟨hne, ?_⟩
    cases b with
    | nil => exact absurd rfl hne
    | cons r rest => simp [memDeleteBatch]
  · intro derr n
    exact workerRun_ticks derr n

/-- C7 witness: a concrete run issuing one call; its batch is non-empty and
the in-memory DeleteBatch succeeds on it. -/
theorem C7_no_empty_flush_witness :
    (rs26, false) ∈
      (workerRun (fun _ => false) initialState (rs26.map Event.recv)).calls ∧
    (rs26 ≠ [] ∧ (memDeleteBatch rs26 emptyMem).isSome = true) :=
  ⟨by decide,
    C7_no_empty_flush.1 (fun _ => false) (rs26.map Event.recv) rs26 false emptyMem (by decide)⟩

/-- C8: the claim says resolving an unknown short code is safe and surfaces
a not-found error; but FindByShort returns a nil record pointer on a miss
and ShortToLong dereferences it (`r.Original`), a runtime panic — evaluated
here at an empty store and the code "abc". -/
theorem C8_shortToLong_panics_on_miss :
    memFindByShort emptyMem "abc" = (none, true) ∧
    shortToLong emptyMem "abc" = none := by decide

/-- C9: FindByLong binds the long URL to the short_url column (the code's
own comment flags this), so a stored record with the queried original URL
is not found, while querying its short code returns it. -/
theorem C9_findByLong_uses_short_column :
    repoRow.original = "https://example.com" ∧
    repoFindByLong [repoRow] "https://example.com" = none ∧
    repoFindByLong [repoRow] "abc" = some repoRow := by decide

/-- C10 counterexample: the worker's channel is unbuffered (capacity 0), so
with the worker inside a flush a producer's send does not complete — the
enqueue waits on the worker's progress, refuting the claim as stated. -/
theorem C10_counterexample :
    sendCompletesNow workerChannelCapacity 0 (workerReady (WorkerPhase.flushing 3)) = false ∧
    (submitStep { pending := [rec0], phase := WorkerPhase.flushing 3, handedOver := [] }).pending = [rec0] := by
  decide

/-- C10 (amended): submission is a rendezvous on the unbuffered channel — a
send completes exactly when the worker is at its select receive; while the
worker is inside a flush the producer makes no progress, and at the select
exactly one pending record is handed over. -/
theorem C10_amended_rendezvous :
    (∀ (ph : WorkerPhase) (q : Nat),
      sendCompletesNow workerChannelCapacity q (workerReady ph) = true ↔
        ph = WorkerPhase.atSelect) ∧
    ∀ (n : Nat) (r : URLRecord) (rest handed : List URLRecord),
      (submitStep { pending := r :: rest, phase := WorkerPhase.flushing n, handedOver := handed }).pending = r :: rest ∧
      (submitStep { pending := r :: rest, phase := WorkerPhase.atSelect, handedOver := handed }).pending = rest ∧
      (submitStep { pending := r :: rest, phase := WorkerPhase.atSelect, handedOver := handed }).handedOver = handed ++ [r] := by
  constructor
  · intro ph q
    cases ph with
    | atSelect => simp [sendCompletesNow, workerReady]
    | flushing k => simp [sendCompletesNow, workerReady, workerChannelCapacity]
  · intro n r rest handed
    cases n with
    | zero => exact ⟨rfl, rfl, rfl⟩
    | succ m => exact ⟨rfl, rfl, rfl⟩

end UrlShortener
